import Mathlib

/-!
Verification of the cluster key-extraction layer of the repository.

The generator `cluster_key_extraction` in `scripts/code_gen.py` turns each
command's declarative key spec (`begin_search` / `find_keys`) into a Python
extractor expression over the encoded argument tuple `args` (whose first
element is the command name), collects the expressions into the `READONLY`
and `ALL` tables, and emits `KeySpec.extract_keys`.  This file embeds those
extractor expressions, the table construction and `extract_keys` and proves
the stated properties about them.
-/

namespace KeyExtract

/-- Python sequence indexing `l[i]`: a negative index counts from the end,
an out-of-range index raises `IndexError` (modelled as `none`). -/
def pyGet (l : List String) (i : Int) : Option String :=
  if i < 0 then
    if (l.length : Int) + i < 0 then none
    else l.get? ((l.length : Int) + i).toNat
  else l.get? i.toNat

/-- Normalization of a Python slice bound: negative bounds count from the
end, and bounds are clamped to `[0, n]`. -/
def pyIndexNorm (n : Nat) (i : Int) : Nat :=
  if i < 0 then ((n : Int) + i).toNat else min i.toNat n

/-- Python slice `l[a:b]` (step 1): the elements at positions
`[norm a, norm b)`. -/
def pySlice (l : List String) (a b : Int) : List String :=
  (l.take (pyIndexNorm l.length b)).drop (pyIndexNorm l.length a)

/-- Helper for `everyNth`: emits the head when the countdown hits zero
(then restarts it at `step - 1`), otherwise skips it. -/
def everyNthAux (step : Nat) : List String → Nat → List String
  | [], _ => []
  | x :: xs, 0 => x :: everyNthAux step xs (step - 1)
  | _ :: xs, k + 1 => everyNthAux step xs k

/-- Every `step`-th element of a list, starting with the first.  Used below
to model the step of a Python extended slice `l[a:b:step]`. -/
def everyNth (step : Nat) (l : List String) : List String :=
  everyNthAux step l 0

/-- Python extended slice `l[a:b:step]` for a positive step. -/
def pySliceStep (l : List String) (a b : Int) (step : Nat) : List String :=
  everyNth step (pySlice l a b)

/-- The step the generator emits: it appends `:keystep` to the slice only
when `keystep > 1`, otherwise the slice uses the default step 1. -/
def stepOf (keystep : Nat) : Nat := if 1 < keystep then keystep else 1

/-- Numeric value of a nonempty all-digit character list (decimal). -/
def digitsVal (l : List Char) : Option Nat :=
  if l = [] then none
  else if l.all Char.isDigit then
    some (l.foldl (fun n c => n * 10 + (c.toNat - 48)) 0)
  else none

/-- Model of Python `int(token)` on a decimal token: optional surrounding
whitespace, an optional sign, then decimal digits; anything else raises
`ValueError` (modelled as `none`). -/
def pyInt (s : String) : Option Int :=
  let l := ((s.data.dropWhile Char.isWhitespace).reverse.dropWhile
      Char.isWhitespace).reverse
  match l with
  | '-' :: rest => (digitsVal rest).map (fun n => -(n : Int))
  | '+' :: rest => (digitsVal rest).map (fun n => (n : Int))
  | rest => (digitsVal rest).map (fun n => (n : Int))

/-- First index `j` with `l[j] = tok`, as computed by Python
`list.index` (without a start argument); `none` models `ValueError`. -/
def pyIndexAux (tok : String) : List String → Option Nat
  | [] => none
  | x :: xs => if x = tok then some 0 else (pyIndexAux tok xs).map (· + 1)

/-- Python `l.index(tok, start)`: first index `j ≥ start` with
`l[j] = tok`; `none` models `ValueError`. -/
def pyListIndex (tok : String) (l : List String) (start : Nat) : Option Nat :=
  (pyIndexAux tok (l.drop start)).map (start + ·)

/-- Number of tokens of a command name: `len(command.strip().split(" "))`
in the generator.  For a single-character separator, the length of the
split equals the number of separator occurrences plus one, so we count
the spaces of the whitespace-stripped name directly. -/
def commandTokenCount (s : String) : Nat :=
  ((((s.data.dropWhile Char.isWhitespace).reverse.dropWhile
      Char.isWhitespace).reverse).filter (fun c => c = ' ')).length + 1

/-- The `command_offset` in `_index_finder` / `_kw_finder`:
`len(command.strip().split(" ")) - 1`. -/
def command_offset (s : String) : Nat := commandTokenCount s - 1

/-- The keyword-position expression `_kw_finder` emits:
`args.index(token, startfrom)` when the adjusted `startfrom` is
nonnegative, otherwise
`len(args) - list(reversed(args)).index(token, abs(startfrom + 1)) - 1`. -/
def kwExpr (kw : String) (startfrom : Int) (args : List String) : Option Int :=
  if 0 ≤ startfrom then
    (pyListIndex kw args startfrom.toNat).map (fun p => (p : Int))
  else
    (pyListIndex kw args.reverse (-(startfrom + 1)).toNat).map
      (fun j => (args.length : Int) - j - 1)

/-- An extractor expression over the encoded argument tuple, as emitted by
the generator.  The first three constructors carry the values baked into
the expressions built by `_index_finder` and `_kw_finder` (with the
`command_offset` adjustment already applied to `start` / `startfrom`);
the last three model the literal expressions of the manually seeded
table entries (`"(args[i],)"`, `"args[a:b:step]"`,
`"(args[h],) + args[a : a + int(args[c])]"`). -/
inductive Extractor where
  | idxRange (start lastkey : Int) (limit keystep : Nat)
  | idxKeynum (start : Int) (firstkey keynumidx : Nat)
  | kwRange (kw : String) (startfrom lastkey : Int) (limit keystep : Nat)
  | single (i : Int)
  | slice (a : Int) (b : Option Int) (step : Nat)
  | headCount (h a c : Int)
  deriving DecidableEq, Repr

/-- Evaluation of one extractor expression on the argument tuple
(`args[0]` is the command name).  `none` models an uncaught Python
exception (`IndexError` from tuple indexing, `ValueError` from `int` or
`list.index`), and also the two spec shapes for which the generator
emits syntactically invalid Python, so that no runnable extractor
exists: an index search with `lastkey = -1` and `limit > 0`, whose
expression (line 2696) already closes its bracket before lines
2705-2708 append another `]` or `:keystep]`, and a keyword search with
`lastkey = 0` and `keystep > 1`, whose tuple expression (line 2745)
likewise gets `:keystep]` appended. -/
def Extractor.run : Extractor → List String → Option (List String)
  | .idxRange start lastkey limit keystep, args =>
    let n : Int := args.length
    if lastkey = -1 then
      if 0 < limit then none
      else some (pySliceStep args start n (stepOf keystep))
    else if lastkey = -2 then
      some (pySliceStep args start (n - 1) (stepOf keystep))
    else if start = start + lastkey then
      (pyGet args start).map (fun x => [x])
    else
      some (pySliceStep args start (start + lastkey) (stepOf keystep))
  | .idxKeynum start firstkey keynumidx, args =>
    match pyGet args ((keynumidx : Int) + start) with
    | none => none
    | some tok =>
      match pyInt tok with
      | none => none
      | some cnt =>
        some (pySlice args (start + firstkey) (start + firstkey + cnt))
  | .kwRange kw startfrom lastkey limit keystep, args =>
    if kw ∈ args then
      match kwExpr kw startfrom args with
      | none => none
      | some kwpos =>
        let n : Int := args.length
        if lastkey = -1 then
          if 0 < limit then
            some (pySliceStep args (1 + kwpos)
              (n - (n - (kwpos + 1)).fdiv limit) (stepOf keystep))
          else some (pySliceStep args (1 + kwpos) n (stepOf keystep))
        else if lastkey = -2 then
          some (pySliceStep args (1 + kwpos) (n - 1) (stepOf keystep))
        else if lastkey = 0 then
          if 1 < keystep then none
          else (pyGet args (kwpos + 1)).map (fun x => [x])
        else none
    else some []
  | .single i, args => (pyGet args i).map (fun x => [x])
  | .slice a b step, args =>
    let bv : Int := match b with | none => (args.length : Int) | some x => x
    some (pySliceStep args a bv step)
  | .headCount h a c, args =>
    match pyGet args h, pyGet args c with
    | some x, some tok =>
      match pyInt tok with
      | some cnt => some (x :: pySlice args a (a + cnt))
      | none => none
    | _, _ => none

/-- Access mode of a key spec, as computed on lines 2763-2771:
`RO` if the spec carries the `RO` flag, else `OW`, else `RW`, else `RM`. -/
inductive Mode where
  | RO | OW | RW | RM
  deriving DecidableEq, Repr

/-- The `begin_search` part of a raw key spec:
`{"type": "index", "spec": {"index": i}}`,
`{"type": "keyword", "spec": {"keyword": kw, "startfrom": s}}`, or
`{"type": "unknown"}`. -/
inductive BeginSearch where
  | index (i : Int)
  | keyword (kw : String) (startfrom : Int)
  | unknown
  deriving DecidableEq, Repr

/-- The `find_keys` part of a raw key spec:
`{"type": "range", "spec": {"lastkey": l, "keystep": k, "limit": m}}`,
`{"type": "keynum", "spec": {"keynumidx": i, "firstkey": f, "keystep": k}}`,
or any other type (which `_index_finder` / `_kw_finder` reject). -/
inductive FindKeys where
  | range (lastkey : Int) (keystep : Nat) (limit : Nat)
  | keynum (keynumidx firstkey keystep : Nat)
  | unknownFind
  deriving DecidableEq, Repr

/-- One entry of a command's `key_specs` list: the three access flags the
mode is derived from, and the optional `begin_search` / `find_keys`
dictionaries (`none` models a missing or empty, hence falsy, dict). -/
structure RawKeySpec where
  flagRO : Bool
  flagOW : Bool
  flagRW : Bool
  begin_search : Option BeginSearch
  find_keys : Option FindKeys
  deriving DecidableEq, Repr

/-- Mode selection of lines 2763-2771. -/
def specMode (s : RawKeySpec) : Mode :=
  if s.flagRO then .RO else if s.flagOW then .OW
  else if s.flagRW then .RW else .RM

/-- What one key spec contributes to the lookup tables (lines 2774-2789
together with `_index_finder` and `_kw_finder`): `none` models a
generation-time `RuntimeError`, `some []` a spec that is skipped (falsy
`begin_search`/`find_keys`, or the `unknown` search type of line 2784),
and `some [(mode, e)]` a generated extractor expression. -/
def specContribution (command : String) (s : RawKeySpec) :
    Option (List (Mode × Extractor)) :=
  match s.begin_search, s.find_keys with
  | some bs, some fk =>
    match bs with
    | .index i =>
      match fk with
      | .range lastkey keystep limit =>
        some [(specMode s,
          .idxRange (i - (command_offset command : Int)) lastkey limit keystep)]
      | .keynum keynumidx firstkey _ =>
        some [(specMode s,
          .idxKeynum (i - (command_offset command : Int)) firstkey keynumidx)]
      | .unknownFind => none
    | .keyword kw startfrom =>
      match fk with
      | .range lastkey keystep limit =>
        if lastkey = -1 ∨ lastkey = -2 ∨ lastkey = 0 then
          some [(specMode s,
            .kwRange kw (startfrom - (command_offset command : Int))
              lastkey limit keystep)]
        else none
      | _ => none
    | .unknown => some []
  | _, _ => some []

/-- Contributions of a whole `key_specs` list, in order; a
`RuntimeError` on any spec aborts the generation. -/
def specsContrib (command : String) : List RawKeySpec →
    Option (List (Mode × Extractor))
  | [] => some []
  | s :: rest => do
    let c ← specContribution command s
    let r ← specsContrib command rest
    pure (c ++ r)

/-- An association list modelling a Python dict that preserves insertion
order (`String` keys, extractor-list values). -/
abbrev Tab := List (String × List Extractor)

/-- The nested `lookups` dict: mode, then command name, then the list of
extractor expressions. -/
abbrev Lookups := List (Mode × Tab)

/-- Dict lookup. -/
def lookupTab (t : Tab) (c : String) : Option (List Extractor) :=
  (t.find? (fun p => p.1 == c)).map (fun p => p.2)

/-- Dict assignment `t[k] = v`: replaces the value in place or appends a
new entry at the end. -/
def tabSet (t : Tab) (k : String) (v : List Extractor) : Tab :=
  match t with
  | [] => [(k, v)]
  | (k', v') :: rest =>
    if k' == k then (k', v) :: rest else (k', v') :: tabSet rest k v

/-- `t.setdefault(k, []).extend(es)`: appends to the existing value or
appends a new entry at the end. -/
def tabExtend (t : Tab) (k : String) (es : List Extractor) : Tab :=
  match t with
  | [] => [(k, es)]
  | (k', v') :: rest =>
    if k' == k then (k', v' ++ es) :: rest else (k', v') :: tabExtend rest k es

/-- `lookups.setdefault(mode, {}).setdefault(name, []).append(e)`. -/
def outerAdd (lk : Lookups) (m : Mode) (name : String) (e : Extractor) :
    Lookups :=
  match lk with
  | [] => [(m, [(name, [e])])]
  | (m', inner) :: rest =>
    if m' = m then (m', tabExtend inner name [e]) :: rest
    else (m', inner) :: outerAdd rest m name e

/-- The command loop of lines 2760-2789: builds the nested `lookups`
dict; `none` models an aborted generation. -/
def buildLookups (cmds : List (String × List RawKeySpec)) : Option Lookups :=
  cmds.foldlM (fun lk p => do
    let cs ← specsContrib p.1 p.2
    pure (cs.foldl (fun lk' me => outerAdd lk' me.1 p.1 me.2) lk)) []

/-- The initial `all` dict of line 2793:
`{"OBJECT": ["(args[2],)"], "DEBUG OBJECT": ["(args[1],)"]}`. -/
def preSeedAll : Tab :=
  [("OBJECT", [.single 2]), ("DEBUG OBJECT", [.single 1])]

/-- Body of the distribution loop of lines 2796-2799: an entry
`(command, exprs)` found under mode `m` is assigned into `readonly` when
`m` is `RO`, and appended to the command's `all` entry in any mode. -/
def stepPair (m : Mode) (acc : Tab × Tab) (q : String × List Extractor) :
    Tab × Tab :=
  (if m = Mode.RO then tabSet acc.1 q.1 q.2 else acc.1,
   tabExtend acc.2 q.1 q.2)

/-- The distribution loop of lines 2795-2799: fills `readonly` from the
`RO` entries and extends `all` (initialized with `preSeedAll`) with every
entry. -/
def buildTables (lk : Lookups) : Tab × Tab :=
  lk.foldl (fun acc p => p.2.foldl (stepPair p.1) acc) ([], preSeedAll)

/-- Right-hand side of one of the manual `all[...] = ...` assignments of
lines 2801-2936: either a literal list of extractor expressions, or a
copy of another command's current entry (the three KeyDB aliases). -/
inductive OverrideRhs where
  | exprs (es : List Extractor)
  | copyOf (src : String)

/-- `fixed_args["first"] = ["args[1],"]` (line 2792), rendered by the
template as the one-element tuple `(args[1],)`. -/
def fixedFirst : List Extractor := [.single 1]

/-- Manual table assignments of lines 2801-2936 (part). -/
def overridesA : List (String × OverrideRhs) := [
  ("EXPIREMEMBER", .copyOf "EXPIRE"),
  ("EXPIREMEMBERAT", .copyOf "EXPIREAT"),
  ("PEXPIREMEMBERAT", .copyOf "PEXPIREAT"),
  ("KEYDB.HRENAME", .exprs [.single 1]),
  ("KEYDB.MEXISTS", .exprs [.slice 1 none 1]),
  ("OBJECT LASTMODIFIED", .exprs [.single 1]),
  ("JSON.DEBUG MEMORY", .exprs fixedFirst),
  ("JSON.DEL", .exprs fixedFirst),
  ("JSON.FORGET", .exprs fixedFirst),
  ("JSON.GET", .exprs fixedFirst),
  ("JSON.SET", .exprs fixedFirst),
  ("JSON.NUMINCRBY", .exprs fixedFirst),
  ("JSON.STRAPPEND", .exprs fixedFirst),
  ("JSON.STRLEN", .exprs fixedFirst),
  ("JSON.ARRAPPEND", .exprs fixedFirst),
  ("JSON.ARRINDEX", .exprs fixedFirst),
  ("JSON.ARRINSERT", .exprs fixedFirst),
  ("JSON.ARRLEN", .exprs fixedFirst),
  ("JSON.ARRPOP", .exprs fixedFirst),
  ("JSON.ARRTRIM", .exprs fixedFirst),
  ("JSON.OBJKEYS", .exprs fixedFirst),
  ("JSON.OBJLEN", .exprs fixedFirst),
  ("JSON.TYPE", .exprs fixedFirst),
  ("JSON.RESP", .exprs fixedFirst),
  ("JSON.TOGGLE", .exprs fixedFirst),
  ("JSON.CLEAR", .exprs fixedFirst),
  ("JSON.NUMMULTBY", .exprs fixedFirst),
  ("JSON.MERGE", .exprs fixedFirst),
  ("JSON.MSET", .exprs [.slice 1 none 3]),
  ("BF.RESERVE", .exprs fixedFirst),
  ("BF.ADD", .exprs fixedFirst)]

/-- Manual table assignments of lines 2801-2936 (part). -/
def overridesB : List (String × OverrideRhs) := [
  ("BF.MADD", .exprs fixedFirst),
  ("BF.INSERT", .exprs fixedFirst),
  ("BF.EXISTS", .exprs fixedFirst),
  ("BF.MEXISTS", .exprs fixedFirst),
  ("BF.SCANDUMP", .exprs fixedFirst),
  ("BF.LOADCHUNK", .exprs fixedFirst),
  ("BF.INFO", .exprs fixedFirst),
  ("BF.CARD", .exprs fixedFirst),
  ("CF.RESERVE", .exprs fixedFirst),
  ("CF.ADD", .exprs fixedFirst),
  ("CF.ADDNX", .exprs fixedFirst),
  ("CF.INSERT", .exprs fixedFirst),
  ("CF.INSERTNX", .exprs fixedFirst),
  ("CF.EXISTS", .exprs fixedFirst),
  ("CF.MEXISTS", .exprs fixedFirst),
  ("CF.DEL", .exprs fixedFirst),
  ("CF.COUNT", .exprs fixedFirst),
  ("CF.SCANDUMP", .exprs fixedFirst),
  ("CF.LOADCHUNK", .exprs fixedFirst),
  ("CF.INFO", .exprs fixedFirst),
  ("CMS.INITBYDIM", .exprs fixedFirst),
  ("CMS.INITBYPROB", .exprs fixedFirst),
  ("CMS.INCRBY", .exprs fixedFirst),
  ("CMS.QUERY", .exprs fixedFirst),
  ("CMS.INFO", .exprs fixedFirst),
  ("CMS.MERGE", .exprs [.headCount 1 3 2]),
  ("TOPK.RESERVE", .exprs fixedFirst),
  ("TOPK.ADD", .exprs fixedFirst),
  ("TOPK.INCRBY", .exprs fixedFirst),
  ("TOPK.QUERY", .exprs fixedFirst),
  ("TOPK.LIST", .exprs fixedFirst)]

/-- Manual table assignments of lines 2801-2936 (part). -/
def overridesC : List (String × OverrideRhs) := [
  ("TOPK.INFO", .exprs fixedFirst),
  ("TOPK.COUNT", .exprs fixedFirst),
  ("TDIGEST.CREATE", .exprs fixedFirst),
  ("TDIGEST.RESET", .exprs fixedFirst),
  ("TDIGEST.ADD", .exprs fixedFirst),
  ("TDIGEST.MERGE", .exprs [.headCount 1 3 2]),
  ("TDIGEST.MIN", .exprs fixedFirst),
  ("TDIGEST.MAX", .exprs fixedFirst),
  ("TDIGEST.QUANTILE", .exprs fixedFirst),
  ("TDIGEST.CDF", .exprs fixedFirst),
  ("TDIGEST.TRIMMED_MEAN", .exprs fixedFirst),
  ("TDIGEST.RANK", .exprs fixedFirst),
  ("TDIGEST.REVRANK", .exprs fixedFirst),
  ("TDIGEST.BYRANK", .exprs fixedFirst),
  ("TDIGEST.BYREVRANK", .exprs fixedFirst),
  ("TDIGEST.INFO", .exprs fixedFirst),
  ("TS.CREATE", .exprs fixedFirst),
  ("TS.CREATERULE", .exprs [.slice 1 (some 3) 1]),
  ("TS.ALTER", .exprs fixedFirst),
  ("TS.ADD", .exprs fixedFirst),
  ("TS.MADD", .exprs [.slice 1 (some (-1)) 3]),
  ("TS.INCRBY", .exprs fixedFirst),
  ("TS.DECRBY", .exprs fixedFirst),
  ("TS.DELETERULE", .exprs [.slice 1 (some 3) 1]),
  ("TS.GET", .exprs fixedFirst),
  ("TS.INFO", .exprs fixedFirst),
  ("TS.REVRANGE", .exprs fixedFirst),
  ("TS.RANGE", .exprs fixedFirst),
  ("TS.DEL", .exprs fixedFirst),
  ("FT.CREATE", .exprs fixedFirst),
  ("FT.INFO", .exprs fixedFirst)]

/-- Manual table assignments of lines 2801-2936 (part). -/
def overridesD : List (String × OverrideRhs) := [
  ("FT.ALTER", .exprs fixedFirst),
  ("FT.ALIASADD", .exprs fixedFirst),
  ("FT.ALIASUPDATE", .exprs fixedFirst),
  ("FT.ALIASDEL", .exprs fixedFirst),
  ("FT.TAGVALS", .exprs fixedFirst),
  ("FT.CONFIG GET", .exprs fixedFirst),
  ("FT.CONFIG SET", .exprs fixedFirst),
  ("FT.SEARCH", .exprs fixedFirst),
  ("FT.AGGREGATE", .exprs fixedFirst),
  ("FT.CURSOR GET", .exprs fixedFirst),
  ("FT.CURSOR DEL", .exprs fixedFirst),
  ("FT.SYNUPDATE", .exprs fixedFirst),
  ("FT.SYNDUMP", .exprs fixedFirst),
  ("FT.SPELLCHECK", .exprs fixedFirst),
  ("FT.DICTADD", .exprs fixedFirst),
  ("FT.DICTDEL", .exprs fixedFirst),
  ("FT.DICTDUMP", .exprs fixedFirst),
  ("FT.DROPINDEX", .exprs fixedFirst),
  ("FT.SUGADD", .exprs fixedFirst),
  ("FT.SUGDEL", .exprs fixedFirst),
  ("FT.SUGGET", .exprs fixedFirst),
  ("FT.SUGLEN", .exprs fixedFirst),
  ("GRAPH.QUERY", .exprs fixedFirst),
  ("GRAPH.DELETE", .exprs fixedFirst),
  ("GRAPH.EXPLAIN", .exprs fixedFirst),
  ("GRAPH.PROFILE", .exprs fixedFirst),
  ("GRAPH.SLOWLOG", .exprs fixedFirst),
  ("GRAPH.CONSTRAINT CREATE", .exprs fixedFirst),
  ("GRAPH.CONSTRAINT DROP", .exprs fixedFirst),
  ("GRAPH.RO_QUERY", .exprs fixedFirst)]

/-- The manual table assignments of lines 2801-2936, in source order. -/
def overrides : List (String × OverrideRhs) :=
  overridesA ++ overridesB ++ overridesC ++ overridesD

/-- One manual assignment; a `copyOf` of a missing source command is the
generation-time `KeyError` the source would raise. -/
def applyOverride (t : Tab) : String × OverrideRhs → Option Tab
  | (k, .exprs es) => some (tabSet t k es)
  | (k, .copyOf src) => (lookupTab t src).map (fun es => tabSet t k es)

/-- All manual assignments of lines 2801-2936, in order. -/
def applyOverrides (t : Tab) : Option Tab := overrides.foldlM applyOverride t

/-- The two generated lookup tables: `KeySpec.READONLY` and
`KeySpec.ALL`. -/
structure KeyTables where
  readonly : Tab
  allTab : Tab
  deriving DecidableEq, Repr

/-- The whole generator command `cluster_key_extraction`: build the
nested lookups from the command table, distribute them into the
`readonly` / `all` dicts, then apply the manual assignments. -/
def clusterKeyExtraction (cmds : List (String × List RawKeySpec)) :
    Option KeyTables := do
  let lk ← buildLookups cmds
  let tabs := buildTables lk
  let allT ← applyOverrides tabs.2
  pure ⟨tabs.1, allT⟩

/-- The generated `lambda args: (e1+e2+...)`: each expression is
evaluated on the full argument tuple and the resulting key tuples are
concatenated; an exception in any expression propagates. -/
def runExprs (es : List Extractor) (args : List String) :
    Option (List String) :=
  match es with
  | [] => some []
  | e :: rest => do
    let v ← e.run args
    let vs ← runExprs rest args
    pure (v ++ vs)

/-- The generated `KeySpec.extract_keys`: with at most one argument the
result is the empty tuple; otherwise the command token selects an entry
of `READONLY` (only when `readonly_command` is set and the entry exists)
or of `ALL`, and a missing `ALL` entry (`KeyError`) yields the empty
tuple.  `none` models any other uncaught exception from the extractor
expressions. -/
def extract_keys (tabs : KeyTables) (readonly_command : Bool)
    (arguments : List String) : Option (List String) :=
  if arguments.length ≤ 1 then some []
  else
    match arguments with
    | [] => some []
    | command :: _ =>
      if readonly_command && (lookupTab tabs.readonly command).isSome then
        runExprs ((lookupTab tabs.readonly command).getD []) arguments
      else
        match lookupTab tabs.allTab command with
        | some es => runExprs es arguments
        | none => some []

/-! Helper lemmas about the Python slice model. -/

theorem stepOf_eq {step : Nat} (h : 1 ≤ step) : stepOf step = step := by
  unfold stepOf
  rcases Nat.lt_or_ge 1 step with h1 | h1
  · rw [if_pos h1]
  · rw [if_neg (by omega)]
    omega

theorem pyIndexNorm_natCast (n a : Nat) :
    pyIndexNorm n (a : Int) = min a n := by
  unfold pyIndexNorm
  rw [if_neg (by omega)]
  simp

theorem take_min (l : List String) (b : Nat) :
    l.take (min b l.length) = l.take b := by
  rcases le_total b l.length with h | h
  · rw [min_eq_left h]
  · rw [min_eq_right h, List.take_length, List.take_of_length_le h]

theorem drop_min (l : List String) (a n : Nat) (hn : l.length ≤ n) :
    l.drop (min a n) = l.drop a := by
  rcases le_total a n with h | h
  · rw [min_eq_left h]
  · rw [min_eq_right h, List.drop_eq_nil_of_le hn,
      List.drop_eq_nil_of_le (le_trans hn h)]

theorem pySlice_natCast (l : List String) (a b : Nat) :
    pySlice l (a : Int) (b : Int) = (l.take b).drop a := by
  unfold pySlice
  rw [pyIndexNorm_natCast, pyIndexNorm_natCast, take_min]
  exact drop_min _ _ _ (by rw [List.length_take]; omega)

theorem pySlice_toEnd (l : List String) (a : Nat) :
    pySlice l (a : Int) (l.length : Int) = l.drop a := by
  rw [pySlice_natCast, List.take_length]

theorem pyGet_natCast (l : List String) (i : Nat) :
    pyGet l (i : Int) = l.get? i := by
  unfold pyGet
  rw [if_neg (by omega)]
  simp

theorem runExprs_single (e : Extractor) (args : List String) :
    runExprs [e] args = e.run args := by
  unfold runExprs runExprs
  cases e.run args <;> simp

theorem lookupTab_nil (c : String) : lookupTab [] c = none := rfl

theorem lookupTab_single_self (c : String) (es : List Extractor) :
    lookupTab [(c, es)] c = some es := by
  unfold lookupTab
  rw [List.find?_cons_of_pos _ (by simp)]
  rfl

/-- Unfolding of `extract_keys` for a one-command `ALL` table when the
request has at least one argument besides the command name. -/
theorem extract_keys_single (c : String) (e : Extractor)
    (rest : List String) (h : rest ≠ []) :
    extract_keys ⟨[], [(c, [e])]⟩ false (c :: rest) = e.run (c :: rest) := by
  unfold extract_keys
  rw [if_neg (by cases rest with
    | nil => exact absurd rfl h
    | cons x xs => simp)]
  simp only [Bool.false_and, Bool.false_eq_true, if_false]
  rw [lookupTab_single_self]
  exact runExprs_single e (c :: rest)

theorem commandTokenCount_pos (c : String) : 1 ≤ commandTokenCount c := by
  unfold commandTokenCount
  omega

/-- The adjusted start index the generator bakes into an index-search
extractor: a begin-search index written as `specStart` positions after
the command name's `commandTokenCount c` tokens becomes tuple index
`specStart + 1`, whatever the name's token count. -/
theorem adjusted_start (c : String) (specStart : Nat) :
    ((specStart + commandTokenCount c : Nat) : Int) - (command_offset c : Int)
      = ((specStart + 1 : Nat) : Int) := by
  have hw := commandTokenCount_pos c
  unfold command_offset
  rw [Nat.cast_sub hw]
  push_cast
  ring

/-- C1.  For a command whose key spec is an index search at `specStart`
positions after the command-name tokens with range `lastkey = -1`
(to the last token), `limit = 0` and step `step`, the generated
extractor applied through `extract_keys` returns every `step`-th token
of the argument tail starting at position `specStart`. -/
theorem c1_index_range_to_end
    (c : String) (specStart step : Nat) (hstep : 1 ≤ step)
    (fro fow frw : Bool) (m : Mode) (e : Extractor) (rest : List String)
    (hgen : specContribution c ⟨fro, fow, frw,
        some (.index ((specStart + commandTokenCount c : Nat) : Int)),
        some (.range (-1) step 0)⟩ = some [(m, e)]) :
    extract_keys ⟨[], [(c, [e])]⟩ false (c :: rest)
      = some (everyNth step (rest.drop specStart)) := by
  simp only [specContribution, List.cons.injEq, Prod.mk.injEq,
    Option.some_inj, and_true] at hgen
  obtain ⟨-, he⟩ := hgen
  cases rest with
  | nil =>
    have h1 : extract_keys ⟨[], [(c, [e])]⟩ false [c] = some [] := by
      unfold extract_keys
      rw [if_pos (by simp)]
    rw [h1, List.drop_nil]
    rfl
  | cons x xs =>
    rw [extract_keys_single c e (x :: xs) (by simp)]
    rw [← he]
    simp only [Extractor.run, if_pos rfl, if_neg (lt_irrefl 0)]
    rw [adjusted_start, stepOf_eq hstep]
    unfold pySliceStep
    rw [pySlice_toEnd]
    have hd : (c :: x :: xs).drop (specStart + 1) = (x :: xs).drop specStart :=
      List.drop_succ_cons
    rw [hd]
    simp

/-- C1 witness: `MSET k1 v1 k2 v2` with the index range starting 0
positions after the name, `lastkey = -1`, `keystep = 2`, `limit = 0`
yields `("k1", "k2")`. -/
theorem c1_index_range_to_end_witness :
    extract_keys ⟨[], [("MSET", [.idxRange 1 (-1) 0 2])]⟩ false
      ["MSET", "k1", "v1", "k2", "v2"] = some ["k1", "k2"] := by
  have h := c1_index_range_to_end "MSET" 0 2 (by decide) false false true
    Mode.RW (.idxRange 1 (-1) 0 2) ["k1", "v1", "k2", "v2"] (by decide)
  exact h.trans (by decide)

/-- C3.  For a command whose key spec is an index search at `specOff`
positions after the command-name tokens whose range end equals its start
(`lastkey = 0`), the generated extractor returns exactly the one token
at that position, whatever `limit` and `keystep` declare. -/
theorem c3_fixed_index
    (c : String) (specOff limit keystep : Nat)
    (fro fow frw : Bool) (m : Mode) (e : Extractor)
    (rest : List String) (tok : String)
    (hgen : specContribution c ⟨fro, fow, frw,
        some (.index ((specOff + commandTokenCount c : Nat) : Int)),
        some (.range 0 keystep limit)⟩ = some [(m, e)])
    (htok : rest.get? specOff = some tok) :
    extract_keys ⟨[], [(c, [e])]⟩ false (c :: rest) = some [tok] := by
  simp only [specContribution, List.cons.injEq, Prod.mk.injEq,
    Option.some_inj, and_true] at hgen
  obtain ⟨-, he⟩ := hgen
  have hne : rest ≠ [] := by
    intro h
    rw [h] at htok
    simp at htok
  rw [extract_keys_single c e rest hne, ← he]
  simp only [Extractor.run]
  rw [if_neg (by decide), if_neg (by decide), if_pos (by ring)]
  rw [adjusted_start, pyGet_natCast]
  have : (c :: rest).get? (specOff + 1) = rest.get? specOff := rfl
  rw [this, htok]
  rfl

/-- C3 witness: `GET key1` with the fixed index 0 positions after the
name yields `("key1",)`. -/
theorem c3_fixed_index_witness :
    extract_keys ⟨[], [("GET", [.idxRange 1 0 0 1])]⟩ false
      ["GET", "key1"] = some ["key1"] :=
  c3_fixed_index "GET" 0 0 1 true false false Mode.RO
    (.idxRange 1 0 0 1) ["key1"] "key1" (by decide) (by decide)

/-- C2.  For a command whose key spec is an index search at `specBegin`
positions after the command-name tokens with a `keynum` find spec, the
generated extractor reads the integer in the token at position
`specBegin + keynumidx` (the count argument) and returns exactly that
many consecutive tokens starting at position `specBegin + firstkey`. -/
theorem c2_key_count_prefixed
    (c : String) (specBegin firstkey keynumidx keystep : Nat)
    (fro fow frw : Bool) (m : Mode) (e : Extractor)
    (rest : List String) (tok : String) (cnt : Nat)
    (hgen : specContribution c ⟨fro, fow, frw,
        some (.index ((specBegin + commandTokenCount c : Nat) : Int)),
        some (.keynum keynumidx firstkey keystep)⟩ = some [(m, e)])
    (htok : rest.get? (specBegin + keynumidx) = some tok)
    (hcnt : pyInt tok = some (cnt : Int))
    (hlen : specBegin + firstkey + cnt ≤ rest.length) :
    extract_keys ⟨[], [(c, [e])]⟩ false (c :: rest)
        = some ((rest.drop (specBegin + firstkey)).take cnt)
      ∧ ((rest.drop (specBegin + firstkey)).take cnt).length = cnt := by
  simp only [specContribution, List.cons.injEq, Prod.mk.injEq,
    Option.some_inj, and_true] at hgen
  obtain ⟨-, he⟩ := hgen
  have hne : rest ≠ [] := by
    intro h
    rw [h] at htok
    simp at htok
  constructor
  · rw [extract_keys_single c e rest hne, ← he]
    simp only [Extractor.run]
    rw [adjusted_start]
    have hidx : ((keynumidx : Int) + ((specBegin + 1 : Nat) : Int))
        = ((specBegin + keynumidx + 1 : Nat) : Int) := by push_cast; ring
    rw [hidx, pyGet_natCast]
    have hget : (c :: rest).get? (specBegin + keynumidx + 1)
        = rest.get? (specBegin + keynumidx) := rfl
    rw [hget, htok]
    simp only [hcnt]
    have hab : (((specBegin + 1 : Nat) : Int) + (firstkey : Int))
        = ((specBegin + firstkey + 1 : Nat) : Int) := by push_cast; ring
    have hab2 : (((specBegin + firstkey + 1 : Nat) : Int) + (cnt : Int))
        = ((specBegin + firstkey + 1 + cnt : Nat) : Int) := by push_cast; ring
    rw [hab, hab2, pySlice_natCast, List.drop_take]
    have h3 : specBegin + firstkey + 1 + cnt - (specBegin + firstkey + 1)
        = cnt := by omega
    rw [h3]
    have h4 : (c :: rest).drop (specBegin + firstkey + 1)
        = rest.drop (specBegin + firstkey) := List.drop_succ_cons
    rw [h4]
  · rw [List.length_take, List.length_drop]
    omega

/-- C2 witness: `EVAL script 2 k1 k2 arg1` with count argument at
position 1 and first key at position 2 after the name yields
`("k1", "k2")`. -/
theorem c2_key_count_prefixed_witness :
    extract_keys ⟨[], [("EVAL", [.idxKeynum 2 1 0])]⟩ false
        ["EVAL", "script", "2", "k1", "k2", "arg1"]
      = some (((["script", "2", "k1", "k2", "arg1"].drop 2).take 2))
    ∧ ((["script", "2", "k1", "k2", "arg1"].drop 2).take 2).length = 2 := by
  have h := c2_key_count_prefixed "EVAL" 1 1 0 1 false false false
    Mode.RM (.idxKeynum 2 1 0) ["script", "2", "k1", "k2", "arg1"]
    "2" 2 (by decide) (by decide) (by decide) (by decide)
  exact h

/-- C5.  The claim describes the intended `limit` subtraction, but the
generator cannot produce it for an index search: the expression of line
2696 already closes its bracket
(`args[s:len(args)-((len(args)-(s+1))//limit)]`) and lines 2705-2708
unconditionally append another `]` (or `:keystep]`), so for every index
range with `lastkey = -1` and `limit > 0` the emitted extractor is
syntactically invalid Python (`args[a:b]]` / `args[a:b]:k]`) and the
generated module cannot exist (only the keyword variant of line 2738
implements the subtraction validly).  The generator does reach this
branch for such a spec, the embedded extractor accordingly fails on the
claim's inputs, and in particular it does not return the keys the claim
predicts (`("k1", "k2", "k3")`: the effective end `4 - 3 / 2 = 3`). -/
theorem c5_index_range_limit_code_bug :
    specContribution "LIMCMD" ⟨false, false, false,
        some (.index 1), some (.range (-1) 1 2)⟩
      = some [(Mode.RM, .idxRange 1 (-1) 2 1)]
    ∧ (Extractor.idxRange 1 (-1) 2 1).run ["LIMCMD", "k1", "k2", "k3", "c1"]
        = none
    ∧ extract_keys ⟨[], [("LIMCMD", [.idxRange 1 (-1) 2 1])]⟩ false
        ["LIMCMD", "k1", "k2", "k3", "c1"] = none
    ∧ (none : Option (List String)) ≠ some ["k1", "k2", "k3"] := by
  refine ⟨by decide, by decide, by decide, by decide⟩

theorem everyNthAux_one (l : List String) : everyNthAux 1 l 0 = l := by
  induction l with
  | nil => rfl
  | cons x xs ih =>
    unfold everyNthAux
    rw [ih]

theorem everyNth_one (l : List String) : everyNth 1 l = l :=
  everyNthAux_one l

/-- C6.  Key-spec offsets are interpreted relative to the command name's
own token count: a declared begin-search index `i` of a command whose
name has `w` tokens is shifted by `w - 1` before indexing the argument
tuple (where the whole name occupies a single slot), so the generated
extractor reads the argument tokens from position `i - w` after the
name, e.g. a to-the-end range starting at wire index `i` yields exactly
the argument tail from position `i - w`. -/
theorem c6_offset_relative_to_name
    (name : String) (w : Nat) (hw : commandTokenCount name = w)
    (i : Nat) (hi : w ≤ i) (fro fow frw : Bool) (rest : List String)
    (es : List (Mode × Extractor))
    (hgen : specContribution name ⟨fro, fow, frw,
        some (.index (i : Int)), some (.range (-1) 1 0)⟩ = some es) :
    es.map (fun me => me.2.run (name :: rest))
      = [some (rest.drop (i - w))] := by
  have hw1 : 1 ≤ w := hw ▸ commandTokenCount_pos name
  simp only [specContribution, Option.some_inj] at hgen
  rw [← hgen]
  simp only [List.map_cons, List.map_nil, Extractor.run]
  rw [if_pos trivial, if_neg (lt_irrefl 0)]
  have hadj : ((i : Int) - (command_offset name : Int))
      = ((i - w + 1 : Nat) : Int) := by
    unfold command_offset
    rw [hw]
    omega
  rw [hadj]
  unfold pySliceStep
  rw [stepOf_eq le_rfl, pySlice_toEnd]
  have hd : (name :: rest).drop (i - w + 1) = rest.drop (i - w) :=
    List.drop_succ_cons
  rw [hd, everyNth_one]

/-- C6 witness: the two-word name `CLUSTER ADDSLOTSRANGE` shifts the
declared index 2 down to argument position 0: all argument tokens are
keys. -/
theorem c6_offset_relative_to_name_witness :
    ([(Mode.RM, Extractor.idxRange 1 (-1) 0 1)].map
        (fun me => me.2.run ["CLUSTER ADDSLOTSRANGE", "a", "b"]))
      = [some ["a", "b"]] := by
  have h := c6_offset_relative_to_name "CLUSTER ADDSLOTSRANGE" 2
    (by decide) 2 (by decide) false false false ["a", "b"]
    [(Mode.RM, .idxRange 1 (-1) 0 1)] (by decide)
  exact h.trans (by decide)

/-- C8.  `extract_keys` with at most one argument (only the command
token, or nothing) returns the empty tuple for every table and mode,
without evaluating any extractor expression. -/
theorem c8_short_input_empty (tabs : KeyTables) (ro : Bool)
    (arguments : List String) (h : arguments.length ≤ 1) :
    extract_keys tabs ro arguments = some [] := by
  unfold extract_keys
  rw [if_pos h]

/-- C8 witness: a bare `GET` yields no keys even with a table whose
`GET` entry would index past the end. -/
theorem c8_short_input_empty_witness :
    (["GET"].length ≤ 1)
      ∧ extract_keys ⟨[], [("GET", [.idxRange 1 0 0 1])]⟩ true ["GET"]
          = some [] :=
  ⟨by decide,
   c8_short_input_empty ⟨[], [("GET", [.idxRange 1 0 0 1])]⟩ true ["GET"]
     (by decide)⟩

/-- C9.  A keyword extractor is guarded by a membership test: when the
keyword token does not occur among the arguments, key extraction returns
the empty tuple instead of raising, whatever the other spec fields. -/
theorem c9_keyword_absent_empty (c kw : String) (sf lk : Int)
    (lim st : Nat) (rest : List String) (h : kw ∉ c :: rest) :
    extract_keys ⟨[], [(c, [.kwRange kw sf lk lim st])]⟩ false (c :: rest)
      = some [] := by
  cases rest with
  | nil =>
    unfold extract_keys
    rw [if_pos (by simp)]
  | cons x xs =>
    rw [extract_keys_single c _ (x :: xs) (by simp)]
    simp only [Extractor.run]
    rw [if_neg h]

/-- C9 witness: `SORT k` contains no `BY` token, so the keyword
extractor returns the empty tuple. -/
theorem c9_keyword_absent_empty_witness :
    ("BY" ∉ ["SORT", "k"])
      ∧ extract_keys ⟨[], [("SORT", [.kwRange "BY" 1 0 0 1])]⟩ false
          ["SORT", "k"] = some [] :=
  ⟨by decide,
   c9_keyword_absent_empty "SORT" "BY" 1 0 0 1 ["k"] (by decide)⟩

/-- `p` is the first position at or after `s` holding the token `kw`. -/
def isFirstOccurrenceFrom (kw : String) (l : List String) (s p : Nat) :
    Prop :=
  s ≤ p ∧ l.get? p = some kw ∧ ∀ q < p, s ≤ q → l.get? q ≠ some kw

/-- `p` is the last position at or before `hi` holding the token `kw`. -/
def isLastOccurrenceUpTo (kw : String) (l : List String) (hi p : Nat) :
    Prop :=
  p ≤ hi ∧ l.get? p = some kw ∧ ∀ q ≤ hi, p < q → l.get? q ≠ some kw

theorem pyIndexAux_eq_some (kw : String) (l : List String) (j : Nat)
    (hj : l.get? j = some kw) (hmin : ∀ q < j, l.get? q ≠ some kw) :
    pyIndexAux kw l = some j := by
  induction l generalizing j with
  | nil => simp at hj
  | cons x xs ih =>
    unfold pyIndexAux
    by_cases hx : x = kw
    · rw [if_pos hx]
      cases j with
      | zero => rfl
      | succ j' =>
        exact absurd (show (x :: xs).get? 0 = some kw by simp [hx])
          (hmin 0 (Nat.succ_pos j'))
    · rw [if_neg hx]
      cases j with
      | zero =>
        simp only [List.get?_cons_zero, Option.some_inj] at hj
        exact absurd hj hx
      | succ j' =>
        have h2 : ∀ q < j', xs.get? q ≠ some kw := fun q hq =>
          hmin (q + 1) (by omega)
        rw [ih j' hj h2]
        rfl

theorem pyListIndex_eq_some (kw : String) (l : List String) (s p : Nat)
    (h : isFirstOccurrenceFrom kw l s p) : pyListIndex kw l s = some p := by
  obtain ⟨hsp, hget, hmin⟩ := h
  unfold pyListIndex
  have hd : (l.drop s).get? (p - s) = some kw := by
    rw [List.get?_eq_getElem?, List.getElem?_drop,
      show s + (p - s) = p by omega, ← List.get?_eq_getElem?]
    exact hget
  have hm : ∀ q < p - s, (l.drop s).get? q ≠ some kw := by
    intro q hq
    rw [List.get?_eq_getElem?, List.getElem?_drop, ← List.get?_eq_getElem?]
    exact hmin (s + q) (by omega) (by omega)
  rw [pyIndexAux_eq_some kw _ (p - s) hd hm]
  show some (s + (p - s)) = some p
  rw [show s + (p - s) = p by omega]

theorem kwExpr_nonneg (kw : String) (l : List String) (sf : Int) (p : Nat)
    (hsf : 0 ≤ sf) (h : isFirstOccurrenceFrom kw l sf.toNat p) :
    kwExpr kw sf l = some (p : Int) := by
  unfold kwExpr
  rw [if_pos hsf, pyListIndex_eq_some kw l sf.toNat p h]
  rfl

theorem kwExpr_neg (kw : String) (l : List String) (sf : Int) (p : Nat)
    (hsf : sf < 0) (hm : (-(sf + 1)).toNat < l.length)
    (h : isLastOccurrenceUpTo kw l (l.length - 1 - (-(sf + 1)).toNat) p) :
    kwExpr kw sf l = some (p : Int) := by
  obtain ⟨hp1, hget, hmax⟩ := h
  have hpn : p < l.length := by
    rcases List.get?_eq_some.1 hget with ⟨hh, -⟩
    exact hh
  have hmp : (-(sf + 1)).toNat ≤ l.length - 1 - p := by omega
  unfold kwExpr
  rw [if_neg (by omega)]
  have hfirst : isFirstOccurrenceFrom kw l.reverse (-(sf + 1)).toNat
      (l.length - 1 - p) := by
    refine ⟨hmp, ?_, ?_⟩
    · rw [List.get?_reverse (by omega),
        show l.length - 1 - (l.length - 1 - p) = p by omega]
      exact hget
    · intro q hq hmq
      rw [List.get?_reverse (by omega)]
      exact hmax (l.length - 1 - q) (by omega) (by omega)
  have hpl := pyListIndex_eq_some kw l.reverse (-(sf + 1)).toNat
    (l.length - 1 - p) hfirst
  rw [hpl]
  show some ((l.length : Int) - ((l.length - 1 - p : Nat) : Int) - 1)
    = some (p : Int)
  congr 1
  omega

/-- C4 counterexample.  The claim says a keyword search with
`startFrom ≥ 0` locates the FIRST occurrence of the token.  The
generated expression is `args.index(token, startfrom)`, which locates
the first occurrence AT OR AFTER `startfrom`.  For the keyword spec
`("STORE", startfrom 2, range lastkey -1 keystep 1 limit 0)` on the
request `CMD STORE a STORE b` (token also present before position 2),
the first occurrence is at position 1, so the claim predicts the keys
starting right after it, `args[2:] = ("a", "STORE", "b")`; the code
locates position 3 instead and returns `("b",)`. -/
theorem c4_keyword_first_occurrence_counterexample :
    specContribution "CMD" ⟨false, false, false,
        some (.keyword "STORE" 2), some (.range (-1) 1 0)⟩
      = some [(Mode.RM, .kwRange "STORE" 2 (-1) 0 1)]
    ∧ pyIndexAux "STORE" ["CMD", "STORE", "a", "STORE", "b"] = some 1
    ∧ extract_keys ⟨[], [("CMD", [.kwRange "STORE" 2 (-1) 0 1])]⟩ false
        ["CMD", "STORE", "a", "STORE", "b"] = some ["b"]
    ∧ (["b"] : List String)
        ≠ ["CMD", "STORE", "a", "STORE", "b"].drop (1 + 1) := by
  refine ⟨by decide, by decide, by decide, by decide⟩

/-- C4 amended.  For a keyword key spec (adjusted start `sf`, range
`lastkey ∈ {-1, -2, 0}` with `limit = 0` and step `step`), the
extractor locates the first occurrence of the token at position `≥ sf`
when `sf ≥ 0`, and when `sf < 0` the last occurrence among all but the
final `-(sf + 1)` tokens (provided that search window is nonempty), and
returns keys according to the declared range and step starting at the
position immediately after the located token. -/
theorem c4_keyword_locate_amended
    (c kw : String) (sf lastkey : Int) (step : Nat) (hstep : 1 ≤ step)
    (hlk : lastkey = -1 ∨ lastkey = -2 ∨ lastkey = 0)
    (hlk0 : lastkey = 0 → step = 1)
    (rest : List String) (hrest : rest ≠ []) (p : Nat)
    (hp : if 0 ≤ sf then isFirstOccurrenceFrom kw (c :: rest) sf.toNat p
      else (-(sf + 1)).toNat < (c :: rest).length
        ∧ isLastOccurrenceUpTo kw (c :: rest)
            ((c :: rest).length - 1 - (-(sf + 1)).toNat) p) :
    extract_keys ⟨[], [(c, [.kwRange kw sf lastkey 0 step])]⟩ false
        (c :: rest)
      = if lastkey = -1 then
          some (everyNth step ((c :: rest).drop (p + 1)))
        else if lastkey = -2 then
          some (everyNth step
            (((c :: rest).take ((c :: rest).length - 1)).drop (p + 1)))
        else ((c :: rest).get? (p + 1)).map (fun x => [x]) := by
  have hget : (c :: rest).get? p = some kw := by
    by_cases hsf : 0 ≤ sf
    · rw [if_pos hsf] at hp
      exact hp.2.1
    · rw [if_neg hsf] at hp
      exact hp.2.2.1
  have hmem : kw ∈ c :: rest := List.get?_mem hget
  have hkw : kwExpr kw sf (c :: rest) = some (p : Int) := by
    by_cases hsf : 0 ≤ sf
    · rw [if_pos hsf] at hp
      exact kwExpr_nonneg kw (c :: rest) sf p hsf hp
    · rw [if_neg hsf] at hp
      exact kwExpr_neg kw (c :: rest) sf p (by omega) hp.1 hp.2
  rw [extract_keys_single c _ rest hrest]
  simp only [Extractor.run]
  rw [if_pos hmem]
  simp only [hkw]
  rcases hlk with h1 | h1 | h1 <;> rw [h1]
  · rw [if_pos rfl, if_neg (lt_irrefl 0), if_pos rfl]
    have ha : (1 : Int) + (p : Int) = ((p + 1 : Nat) : Int) := by
      push_cast
      ring
    rw [ha]
    unfold pySliceStep
    rw [stepOf_eq hstep, pySlice_toEnd]
  · rw [if_neg (by decide), if_pos rfl, if_neg (by decide), if_pos rfl]
    have ha : (1 : Int) + (p : Int) = ((p + 1 : Nat) : Int) := by
      push_cast
      ring
    have hb : (((c :: rest).length : Int)) - 1
        = (((c :: rest).length - 1 : Nat) : Int) := by
      simp only [List.length_cons]
      push_cast
      ring
    rw [ha, hb]
    unfold pySliceStep
    rw [stepOf_eq hstep, pySlice_natCast]
  · rw [hlk0 h1]
    have ha : (p : Int) + 1 = ((p + 1 : Nat) : Int) := by
      push_cast
      ring
    rw [if_neg (show ¬((0 : Int) = -1) by decide),
      if_neg (show ¬((0 : Int) = -2) by decide), if_pos rfl,
      if_neg (show ¬(1 < 1) by decide),
      if_neg (show ¬((0 : Int) = -1) by decide),
      if_neg (show ¬((0 : Int) = -2) by decide), ha, pyGet_natCast]

/-- C4 amended witness: `GEORADIUS key lon lat rad unit STORE dest` with
keyword `STORE`, adjusted start 6, `lastkey = 0`, step 1 locates the
`STORE` token at position 6 and returns the token after it. -/
theorem c4_keyword_locate_amended_witness :
    extract_keys ⟨[], [("GEORADIUS", [.kwRange "STORE" 6 0 0 1])]⟩ false
      ["GEORADIUS", "key", "lon", "lat", "rad", "unit", "STORE", "dest"]
      = some ["dest"] := by
  have h := c4_keyword_locate_amended "GEORADIUS" "STORE" 6 0 1
    (by decide) (Or.inr (Or.inr rfl)) (fun _ => rfl)
    ["key", "lon", "lat", "rad", "unit", "STORE", "dest"] (by simp) 6
    (by rw [if_pos (by decide)]
        refine ⟨by decide, by decide, ?_⟩
        decide)
  exact h.trans (by decide)

/-! Lemmas about the ordered-dict operations and the table pipeline. -/

theorem lookupTab_cons (k' : String) (v' : List Extractor) (t : Tab)
    (c : String) :
    lookupTab ((k', v') :: t) c
      = if k' = c then some v' else lookupTab t c := by
  by_cases h : k' = c
  · rw [if_pos h]
    unfold lookupTab
    rw [List.find?_cons_of_pos _ (by simp [h])]
    rfl
  · rw [if_neg h]
    unfold lookupTab
    rw [List.find?_cons_of_neg _ (by simp [h])]

theorem lookupTab_tabSet (t : Tab) (k c : String) (v : List Extractor) :
    lookupTab (tabSet t k v) c = if k = c then some v else lookupTab t c := by
  induction t with
  | nil =>
    unfold tabSet
    rw [lookupTab_cons]
  | cons p t ih =>
    obtain ⟨k', v'⟩ := p
    unfold tabSet
    by_cases h : k' = k
    · subst h
      rw [if_pos (by simp)]
      by_cases h2 : k' = c <;> simp [lookupTab_cons, h2]
    · rw [if_neg (by simp [h])]
      by_cases h3 : k' = c
      · subst h3
        simp [lookupTab_cons, ih, show ¬(k = k') from fun hh => h hh.symm]
      · simp [lookupTab_cons, ih, h3]

theorem lookupTab_tabExtend (t : Tab) (k c : String) (es : List Extractor) :
    lookupTab (tabExtend t k es) c
      = if k = c then some ((lookupTab t k).getD [] ++ es)
        else lookupTab t c := by
  induction t with
  | nil =>
    unfold tabExtend
    rw [lookupTab_cons]
    rfl
  | cons p t ih =>
    obtain ⟨k', v'⟩ := p
    unfold tabExtend
    by_cases h : k' = k
    · subst h
      rw [if_pos (by simp)]
      by_cases h2 : k' = c <;> simp [lookupTab_cons, h2]
    · rw [if_neg (by simp [h])]
      by_cases h3 : k' = c
      · subst h3
        simp [lookupTab_cons, ih, show ¬(k = k') from fun hh => h hh.symm]
      · simp [lookupTab_cons, ih, h, h3]

/-- A manual assignment to a key other than `c` does not change the
entry of `c`. -/
theorem applyOverride_lookup_ne (t t' : Tab) (i : String × OverrideRhs)
    (c : String) (hi : i.1 ≠ c) (h : applyOverride t i = some t') :
    lookupTab t' c = lookupTab t c := by
  obtain ⟨k, rhs⟩ := i
  cases rhs with
  | exprs es =>
    simp only [applyOverride, Option.some_inj] at h
    rw [← h, lookupTab_tabSet, if_neg hi]
  | copyOf src =>
    simp only [applyOverride] at h
    cases hsrc : lookupTab t src with
    | none => rw [hsrc] at h; simp at h
    | some es =>
      rw [hsrc] at h
      simp only [Option.map_some', Option.some_inj] at h
      rw [← h, lookupTab_tabSet, if_neg hi]

/-- A manual assignment never removes an entry. -/
theorem applyOverride_isSome (t t' : Tab) (i : String × OverrideRhs)
    (c : String) (h : applyOverride t i = some t')
    (hs : (lookupTab t c).isSome) : (lookupTab t' c).isSome := by
  obtain ⟨k, rhs⟩ := i
  by_cases hk : k = c
  · subst hk
    cases rhs with
    | exprs es =>
      simp only [applyOverride, Option.some_inj] at h
      rw [← h, lookupTab_tabSet, if_pos rfl]
      rfl
    | copyOf src =>
      simp only [applyOverride] at h
      cases hsrc : lookupTab t src with
      | none => rw [hsrc] at h; simp at h
      | some es =>
        rw [hsrc] at h
        simp only [Option.map_some', Option.some_inj] at h
        rw [← h, lookupTab_tabSet, if_pos rfl]
        rfl
  · rw [applyOverride_lookup_ne t t' (k, rhs) c hk h]
    exact hs

/-- Folding manual assignments whose keys avoid `c` leaves the entry of
`c` unchanged. -/
theorem foldOverrides_lookup_ne (l : List (String × OverrideRhs)) :
    ∀ (t t' : Tab) (c : String), l.foldlM applyOverride t = some t' →
      c ∉ l.map (fun p => p.1) → lookupTab t' c = lookupTab t c := by
  induction l with
  | nil =>
    intro t t' c h hm
    simp only [List.foldlM_nil, Option.pure_def, Option.some_inj] at h
    rw [h]
  | cons i l ih =>
    intro t t' c h hm
    rw [List.foldlM_cons] at h
    cases happ : applyOverride t i with
    | none => rw [happ] at h; simp at h
    | some t1 =>
      rw [happ] at h
      simp only [Option.bind_eq_bind, Option.some_bind] at h
      have hi : i.1 ≠ c := by
        intro hh
        exact hm (by rw [List.map_cons, hh]; exact List.mem_cons_self _ _)
      have hm' : c ∉ l.map (fun p => p.1) := by
        intro hh
        exact hm (by rw [List.map_cons]; exact List.mem_cons_of_mem _ hh)
      rw [ih t1 t' c h hm', applyOverride_lookup_ne t t1 i c hi happ]

/-- Folding manual assignments never removes entries. -/
theorem foldOverrides_isSome (l : List (String × OverrideRhs)) :
    ∀ (t t' : Tab) (c : String), l.foldlM applyOverride t = some t' →
      (lookupTab t c).isSome → (lookupTab t' c).isSome := by
  induction l with
  | nil =>
    intro t t' c h hs
    simp only [List.foldlM_nil, Option.pure_def, Option.some_inj] at h
    rw [← h]
    exact hs
  | cons i l ih =>
    intro t t' c h hs
    rw [List.foldlM_cons] at h
    cases happ : applyOverride t i with
    | none => rw [happ] at h; simp at h
    | some t1 =>
      rw [happ] at h
      simp only [Option.bind_eq_bind, Option.some_bind] at h
      exact ih t1 t' c h (applyOverride_isSome t t1 i c happ hs)

/-- Relation between the two tables maintained by the distribution
loop: every `READONLY` entry has an `ALL` entry containing all its
extractor expressions. -/
def SubT (ro allT : Tab) : Prop :=
  ∀ c es, lookupTab ro c = some es →
    ∃ es', lookupTab allT c = some es' ∧ ∀ e ∈ es, e ∈ es'

theorem stepPair_subT (m : Mode) (acc : Tab × Tab)
    (q : String × List Extractor) (h : SubT acc.1 acc.2) :
    SubT (stepPair m acc q).1 (stepPair m acc q).2 := by
  obtain ⟨k, es0⟩ := q
  intro c es hc
  unfold stepPair at hc ⊢
  simp only at hc ⊢
  rw [lookupTab_tabExtend]
  by_cases hk : k = c
  · subst hk
    rw [if_pos rfl]
    by_cases hm : m = Mode.RO
    · rw [if_pos hm, lookupTab_tabSet, if_pos rfl] at hc
      refine ⟨_, rfl, ?_⟩
      intro e he
      rw [Option.some_inj] at hc
      rw [← hc] at he
      exact List.mem_append_right _ he
    · rw [if_neg hm] at hc
      obtain ⟨es', hes', hsub⟩ := h k es hc
      refine ⟨_, rfl, ?_⟩
      intro e he
      rw [hes']
      exact List.mem_append_left _ (hsub e he)
  · rw [if_neg hk]
    have hc' : lookupTab acc.1 c = some es := by
      by_cases hm : m = Mode.RO
      · rw [if_pos hm, lookupTab_tabSet, if_neg hk] at hc
        exact hc
      · rw [if_neg hm] at hc
        exact hc
    exact h c es hc'

theorem innerFold_subT (m : Mode) (inner : Tab) :
    ∀ acc : Tab × Tab, SubT acc.1 acc.2 →
      SubT (inner.foldl (stepPair m) acc).1
        (inner.foldl (stepPair m) acc).2 := by
  induction inner with
  | nil => intro acc h; exact h
  | cons q inner ih =>
    intro acc h
    rw [List.foldl_cons]
    exact ih (stepPair m acc q) (stepPair_subT m acc q h)

theorem buildTables_subT (lk : Lookups) :
    SubT (buildTables lk).1 (buildTables lk).2 := by
  unfold buildTables
  have hgen : ∀ acc : Tab × Tab, SubT acc.1 acc.2 →
      SubT (lk.foldl (fun acc p => p.2.foldl (stepPair p.1) acc) acc).1
        (lk.foldl (fun acc p => p.2.foldl (stepPair p.1) acc) acc).2 := by
    induction lk with
    | nil => intro acc h; exact h
    | cons p lk ih =>
      intro acc h
      rw [List.foldl_cons]
      exact ih _ (innerFold_subT p.1 p.2 acc h)
  refine hgen ([], preSeedAll) ?_
  intro c es hc
  simp [lookupTab] at hc

/-- No entry of the dict has key `c`. -/
def NoKey (t : Tab) (c : String) : Prop := ∀ q ∈ t, q.1 ≠ c

/-- No inner dict of the nested lookups has an entry for command `c`. -/
def NoName (lk : Lookups) (c : String) : Prop :=
  ∀ mi ∈ lk, NoKey mi.2 c

theorem lookupTab_eq_none_of_noKey (t : Tab) (c : String)
    (h : NoKey t c) : lookupTab t c = none := by
  induction t with
  | nil => rfl
  | cons p t ih =>
    rw [lookupTab_cons, if_neg (h p (List.mem_cons_self _ _))]
    exact ih (fun q hq => h q (List.mem_cons_of_mem _ hq))

theorem tabExtend_noKey (t : Tab) (n c : String) (es : List Extractor)
    (hn : n ≠ c) (h : NoKey t c) : NoKey (tabExtend t n es) c := by
  induction t with
  | nil =>
    intro q hq
    unfold tabExtend at hq
    simp only [List.mem_singleton] at hq
    rw [hq]
    exact hn
  | cons p t ih =>
    intro q hq
    unfold tabExtend at hq
    by_cases hp : p.1 == n
    · obtain ⟨k', v'⟩ := p
      rw [if_pos hp] at hq
      rcases List.mem_cons.1 hq with hq1 | hq1
      · rw [hq1]
        exact h (k', v') (List.mem_cons_self _ _)
      · exact h q (List.mem_cons_of_mem _ hq1)
    · obtain ⟨k', v'⟩ := p
      rw [if_neg hp] at hq
      rcases List.mem_cons.1 hq with hq1 | hq1
      · rw [hq1]
        exact h (k', v') (List.mem_cons_self _ _)
      · exact ih (fun r hr => h r (List.mem_cons_of_mem _ hr)) q hq1

theorem outerAdd_noName (lk : Lookups) (m : Mode) (n : String)
    (e : Extractor) (c : String) (hn : n ≠ c) (h : NoName lk c) :
    NoName (outerAdd lk m n e) c := by
  induction lk with
  | nil =>
    intro mi hmi
    unfold outerAdd at hmi
    simp only [List.mem_singleton] at hmi
    rw [hmi]
    intro q hq
    simp only [List.mem_singleton] at hq
    rw [hq]
    exact hn
  | cons p lk ih =>
    intro mi hmi
    unfold outerAdd at hmi
    by_cases hp : p.1 = m
    · obtain ⟨m', inner⟩ := p
      rw [if_pos hp] at hmi
      rcases List.mem_cons.1 hmi with h1 | h1
      · rw [h1]
        exact tabExtend_noKey inner n c [e] hn
          (h (m', inner) (List.mem_cons_self _ _))
      · exact h mi (List.mem_cons_of_mem _ h1)
    · obtain ⟨m', inner⟩ := p
      rw [if_neg hp] at hmi
      rcases List.mem_cons.1 hmi with h1 | h1
      · rw [h1]
        exact h (m', inner) (List.mem_cons_self _ _)
      · exact ih (fun r hr => h r (List.mem_cons_of_mem _ hr)) mi h1

theorem foldOuterAdd_noName (cs : List (Mode × Extractor)) (n : String)
    (c : String) (hn : n ≠ c) :
    ∀ lk : Lookups, NoName lk c →
      NoName (cs.foldl (fun lk' me => outerAdd lk' me.1 n me.2) lk) c := by
  induction cs with
  | nil => intro lk h; exact h
  | cons me cs ih =>
    intro lk h
    rw [List.foldl_cons]
    exact ih _ (outerAdd_noName lk me.1 n me.2 c hn h)

/-- A key spec that contributes nothing: falsy `begin_search` or
`find_keys`, or the `unknown` search type. -/
def specInert (s : RawKeySpec) : Prop :=
  s.begin_search = none ∨ s.find_keys = none
    ∨ s.begin_search = some .unknown

theorem specContribution_inert (name : String) (s : RawKeySpec)
    (h : specInert s) : specContribution name s = some [] := by
  obtain ⟨fro, fow, frw, bs, fk⟩ := s
  rcases h with h | h | h
  all_goals simp only at h
  · subst h
    cases fk <;> rfl
  · subst h
    cases bs <;> rfl
  · subst h
    cases fk <;> rfl

theorem specsContrib_inert (name : String) (specs : List RawKeySpec)
    (h : ∀ s ∈ specs, specInert s) : specsContrib name specs = some [] := by
  induction specs with
  | nil => rfl
  | cons s specs ih =>
    unfold specsContrib
    rw [specContribution_inert name s (h s (List.mem_cons_self _ _)),
      ih (fun r hr => h r (List.mem_cons_of_mem _ hr))]
    rfl

theorem buildLookups_noName (cmds : List (String × List RawKeySpec))
    (c : String) :
    ∀ lk0 lk : Lookups,
      cmds.foldlM (fun lk p => do
        let cs ← specsContrib p.1 p.2
        pure (cs.foldl (fun lk' me => outerAdd lk' me.1 p.1 me.2) lk)) lk0
        = some lk →
      NoName lk0 c →
      (∀ p ∈ cmds, p.1 = c → ∀ s ∈ p.2, specInert s) →
      NoName lk c := by
  induction cmds with
  | nil =>
    intro lk0 lk h h0 _
    simp only [List.foldlM_nil, Option.pure_def, Option.some_inj] at h
    rw [← h]
    exact h0
  | cons p cmds ih =>
    intro lk0 lk h h0 hc
    rw [List.foldlM_cons] at h
    cases hcs : specsContrib p.1 p.2 with
    | none =>
      rw [show (do
          let cs ← specsContrib p.1 p.2
          pure (cs.foldl (fun lk' me => outerAdd lk' me.1 p.1 me.2) lk0)
          : Option Lookups) = none from by rw [hcs]; rfl] at h
      simp at h
    | some cs =>
      have hstep : (do
          let cs ← specsContrib p.1 p.2
          pure (cs.foldl (fun lk' me => outerAdd lk' me.1 p.1 me.2) lk0)
          : Option Lookups)
          = some (cs.foldl (fun lk' me => outerAdd lk' me.1 p.1 me.2) lk0) :=
        by rw [hcs]; rfl
      rw [hstep] at h
      simp only [Option.bind_eq_bind, Option.some_bind] at h
      have hc' : ∀ q ∈ cmds, q.1 = c → ∀ s ∈ q.2, specInert s :=
        fun q hq => hc q (List.mem_cons_of_mem _ hq)
      by_cases hp : p.1 = c
      · have : specsContrib p.1 p.2 = some [] :=
          specsContrib_inert p.1 p.2 (hc p (List.mem_cons_self _ _) hp)
        rw [this] at hcs
        rw [Option.some_inj] at hcs
        rw [← hcs] at h
        simp only [List.foldl_nil] at h
        exact ih lk0 lk h h0 hc'
      · exact ih _ lk h (foldOuterAdd_noName cs p.1 c hp lk0 h0) hc'

theorem stepPair_lookup_ne (m : Mode) (acc : Tab × Tab)
    (q : String × List Extractor) (c : String) (hq : q.1 ≠ c) :
    lookupTab (stepPair m acc q).1 c = lookupTab acc.1 c
      ∧ lookupTab (stepPair m acc q).2 c = lookupTab acc.2 c := by
  unfold stepPair
  constructor
  · by_cases hm : m = Mode.RO
    · rw [if_pos hm]
      simp only
      rw [lookupTab_tabSet, if_neg hq]
    · rw [if_neg hm]
  · simp only
    rw [lookupTab_tabExtend, if_neg hq]

theorem innerFold_lookup_ne (m : Mode) (inner : Tab) (c : String)
    (hinner : NoKey inner c) :
    ∀ acc : Tab × Tab,
      lookupTab (inner.foldl (stepPair m) acc).1 c = lookupTab acc.1 c
        ∧ lookupTab (inner.foldl (stepPair m) acc).2 c
            = lookupTab acc.2 c := by
  induction inner with
  | nil => intro acc; exact ⟨rfl, rfl⟩
  | cons q inner ih =>
    intro acc
    rw [List.foldl_cons]
    have hq : q.1 ≠ c := hinner q (List.mem_cons_self _ _)
    have h1 := stepPair_lookup_ne m acc q c hq
    have h2 := ih (fun r hr => hinner r (List.mem_cons_of_mem _ hr))
      (stepPair m acc q)
    exact ⟨h2.1.trans h1.1, h2.2.trans h1.2⟩

theorem buildTables_noName (lk : Lookups) (c : String)
    (h : NoName lk c) :
    lookupTab (buildTables lk).1 c = none
      ∧ lookupTab (buildTables lk).2 c = lookupTab preSeedAll c := by
  unfold buildTables
  have hgen : ∀ lk' : Lookups, NoName lk' c → ∀ acc : Tab × Tab,
      lookupTab (lk'.foldl (fun acc p => p.2.foldl (stepPair p.1) acc)
          acc).1 c = lookupTab acc.1 c
        ∧ lookupTab (lk'.foldl (fun acc p => p.2.foldl (stepPair p.1) acc)
            acc).2 c = lookupTab acc.2 c := by
    intro lk'
    induction lk' with
    | nil => intro _ acc; exact ⟨rfl, rfl⟩
    | cons p lk' ih =>
      intro hno acc
      rw [List.foldl_cons]
      have h1 := innerFold_lookup_ne p.1 p.2 c
        (hno p (List.mem_cons_self _ _)) acc
      have h2 := ih (fun r hr => hno r (List.mem_cons_of_mem _ hr))
        (p.2.foldl (stepPair p.1) acc)
      exact ⟨h2.1.trans h1.1, h2.2.trans h1.2⟩
  exact hgen lk h ([], preSeedAll)

/-- `extract_keys` on a command missing from both tables returns the
empty tuple (the `KeyError` branch). -/
theorem extract_keys_miss (tabs : KeyTables) (ro : Bool) (c : String)
    (rest : List String) (h1 : lookupTab tabs.readonly c = none)
    (h2 : lookupTab tabs.allTab c = none) :
    extract_keys tabs ro (c :: rest) = some [] := by
  unfold extract_keys
  by_cases hlen : (c :: rest).length ≤ 1
  · rw [if_pos hlen]
  · rw [if_neg hlen]
    simp only [h1, h2, Option.isSome_none, Bool.and_false]
    rfl

instance (s : RawKeySpec) : Decidable (specInert s) := by
  unfold specInert
  infer_instance

/-- Unpacking of a successful run of the generator command. -/
theorem clusterKeyExtraction_eq (cmds : List (String × List RawKeySpec))
    (tabs : KeyTables) (h : clusterKeyExtraction cmds = some tabs) :
    ∃ lk allT, buildLookups cmds = some lk
      ∧ applyOverrides (buildTables lk).2 = some allT
      ∧ tabs = ⟨(buildTables lk).1, allT⟩ := by
  unfold clusterKeyExtraction at h
  cases hbl : buildLookups cmds with
  | none => rw [hbl] at h; simp at h
  | some lk =>
    rw [hbl] at h
    simp only [Option.bind_eq_bind, Option.some_bind] at h
    cases hao : applyOverrides (buildTables lk).2 with
    | none => rw [hao] at h; simp at h
    | some allT =>
      rw [hao] at h
      simp only [Option.bind_eq_bind, Option.some_bind, Option.pure_def,
        Option.some_inj] at h
      exact ⟨lk, allT, rfl, hao, h.symm⟩

/-- C7.  A command all of whose key specs are skipped by the generator
(missing or falsy `begin_search`/`find_keys`, or an `unknown` search
type) and which is not one of the manually seeded or manually assigned
table entries has no entry in either generated table, so `extract_keys`
returns the empty tuple for it (the `KeyError` fallback) instead of
failing, for every request and both lookup modes. -/
theorem c7_no_keyspec_empty_keys
    (cmds : List (String × List RawKeySpec)) (tabs : KeyTables)
    (hgen : clusterKeyExtraction cmds = some tabs)
    (c : String)
    (hc : ∀ p ∈ cmds, p.1 = c → ∀ s ∈ p.2, specInert s)
    (hseed : c ≠ "OBJECT" ∧ c ≠ "DEBUG OBJECT")
    (hover : c ∉ overrides.map (fun p => p.1))
    (ro : Bool) (rest : List String) :
    extract_keys tabs ro (c :: rest) = some [] := by
  obtain ⟨lk, allT, hbl, hao, htabs⟩ := clusterKeyExtraction_eq cmds tabs hgen
  unfold buildLookups at hbl
  have hno : NoName lk c :=
    buildLookups_noName cmds c [] lk hbl
      (fun mi hmi => absurd hmi (List.not_mem_nil mi)) hc
  have hbt := buildTables_noName lk c hno
  have hpre : lookupTab preSeedAll c = none := by
    unfold preSeedAll
    rw [lookupTab_cons, if_neg (fun hh => hseed.1 hh.symm),
      lookupTab_cons, if_neg (fun hh => hseed.2 hh.symm)]
    rfl
  unfold applyOverrides at hao
  have hro : lookupTab tabs.readonly c = none := by
    rw [htabs]
    exact hbt.1
  have hall : lookupTab tabs.allTab c = none := by
    rw [htabs]
    simp only
    rw [foldOverrides_lookup_ne overrides (buildTables lk).2 allT c hao
      hover, hbt.2, hpre]
  exact extract_keys_miss tabs ro c rest hro hall

/-- Sample command table for exercising the generator end to end: the
three commands the KeyDB aliases copy from, plus a readonly command and
a command whose only key spec has the `unknown` search type. -/
def sampleCmds : List (String × List RawKeySpec) :=
  [("EXPIRE", [⟨false, false, true, some (.index 1), some (.range 0 1 0)⟩]),
   ("EXPIREAT",
     [⟨false, false, true, some (.index 1), some (.range 0 1 0)⟩]),
   ("PEXPIREAT",
     [⟨false, false, true, some (.index 1), some (.range 0 1 0)⟩]),
   ("GET", [⟨true, false, false, some (.index 1), some (.range 0 1 0)⟩]),
   ("SORT", [⟨true, false, false, some .unknown, some (.range (-1) 1 0)⟩])]

/-- The tables the generator produces for `sampleCmds`. -/
def sampleTabs : KeyTables := (clusterKeyExtraction sampleCmds).getD ⟨[], []⟩

/-- C7 witness: `SORT` has only an `unknown`-search key spec, so the
generated tables have no `SORT` entry and extraction returns the empty
tuple. -/
theorem c7_no_keyspec_empty_keys_witness :
    clusterKeyExtraction sampleCmds = some sampleTabs
      ∧ extract_keys sampleTabs false ["SORT", "key", "BY", "w"]
          = some [] := by
  refine ⟨by decide, ?_⟩
  exact c7_no_keyspec_empty_keys sampleCmds sampleTabs (by decide) "SORT"
    (by decide) (by decide) (by decide) false ["key", "BY", "w"]

/-- C10.  Every command in the generated `READONLY` table also has an
entry in the `ALL` table (so a readonly lookup never succeeds where the
general lookup would miss), and -- unless the command is one of the
manually reassigned module/KeyDB names, none of which carry `RO`
specs -- its `READONLY` extractor expressions are all among its `ALL`
expressions. -/
theorem c10_readonly_included_in_all
    (cmds : List (String × List RawKeySpec)) (tabs : KeyTables)
    (hgen : clusterKeyExtraction cmds = some tabs)
    (c : String) (es : List Extractor)
    (hro : lookupTab tabs.readonly c = some es) :
    (lookupTab tabs.allTab c).isSome = true
      ∧ (c ∉ overrides.map (fun p => p.1) →
          ∃ es', lookupTab tabs.allTab c = some es'
            ∧ ∀ e ∈ es, e ∈ es') := by
  obtain ⟨lk, allT, hbl, hao, htabs⟩ := clusterKeyExtraction_eq cmds tabs hgen
  rw [htabs] at hro
  simp only at hro
  obtain ⟨es', hes', hsub⟩ := buildTables_subT lk c es hro
  unfold applyOverrides at hao
  rw [htabs]
  constructor
  · exact foldOverrides_isSome overrides _ allT c hao (by rw [hes']; rfl)
  · intro hover
    simp only
    rw [foldOverrides_lookup_ne overrides _ allT c hao hover, hes']
    exact ⟨es', rfl, hsub⟩

/-- C10 witness: `GET` is registered readonly in the sample table; its
entry is present in `ALL` and its extractor expression is among the
`ALL` expressions. -/
theorem c10_readonly_included_in_all_witness :
    lookupTab sampleTabs.readonly "GET" = some [.idxRange 1 0 0 1]
      ∧ ((lookupTab sampleTabs.allTab "GET").isSome = true
          ∧ ("GET" ∉ overrides.map (fun p => p.1) →
              ∃ es', lookupTab sampleTabs.allTab "GET" = some es'
                ∧ ∀ e ∈ [Extractor.idxRange 1 0 0 1], e ∈ es')) := by
  refine ⟨by decide, ?_⟩
  exact c10_readonly_included_in_all sampleCmds sampleTabs (by decide)
    "GET" [.idxRange 1 0 0 1] (by decide)

end KeyExtract
